import Mathlib

/-!
Verification development for the cadl emitter framework
(src/unnamed/part_003 together with src/src/placeholder.ts and
src/src/types.ts).  The TypeScript source is shallowly embedded:

* the Cadl type graph is the inductive `Ty` below; fields that the
  embedded code only tests for presence or length (`templateArguments`)
  are represented by an `Option Nat` carrying that length, and the
  `namespace` parent-pointer chain is flattened into a list of
  ancestor names (`NsRef`);
* records (the lexical / reference context maps) are association lists
  kept sorted by key, so that structural equality of the embedding
  coincides with the value equality that the source obtains by
  interning every context record (`createInterner`);
* the mutable module-level variables of `createAssetEmitter`
  (`typeToEmitEntity`, `knownContexts`, `lexicalTypeStack`, `context`,
  `programContext`, `incomingReferenceContext`) become fields of an
  explicit state record threaded through every function;
* user-supplied emitter methods (the `TypeEmitter` subclass) are
  parameters of the embedding, exactly as they are inputs of the
  framework.
-/

namespace EmitterFramework

/-! ## Records (plain javascript objects used as context maps)

A record is an association list sorted strictly by key with no
duplicate keys; `rset` is property assignment and `mergeRec` is the
right-biased spread merge `\x7b...a, ...b\x7d` used throughout
`setContextForType`.  Keeping the list sorted makes structural
equality of the embedding agree with the value equality that the
source establishes via the interner. -/

abbrev Rec := List (String × Nat)

/-- Lookup of a property in a record. -/
def rlookup (r : Rec) (k : String) : Option Nat :=
  match r with
  | [] => none
  | (k1, v1) :: rest => if k1 = k then some v1 else rlookup rest k

/-- Sorted insert-or-replace of one property. -/
def rset (r : Rec) (k : String) (v : Nat) : Rec :=
  match r with
  | [] => [(k, v)]
  | (k1, v1) :: rest =>
    if k = k1 then (k, v) :: rest
    else if k < k1 then (k, v) :: (k1, v1) :: rest
    else (k1, v1) :: rset rest k v

/-- Right-biased merge of two records, the spread-merge of the source. -/
def mergeRec (a b : Rec) : Rec :=
  b.foldl (fun acc kv => rset acc kv.1 kv.2) a

/-- Normalisation of a user-supplied record into the sorted form. -/
def normRec (r : Rec) : Rec := mergeRec [] r

/-! ## The type graph -/

/-- A namespace node of the type graph: its own name and the names of
its enclosing namespaces, innermost first.  This flattens the
`namespace` parent-pointer chain of the compiler types. -/
structure NsRef where
  name : String
  ancestors : List String
deriving DecidableEq, Repr

/-- The parent namespace (the `.namespace` property of a namespace). -/
def NsRef.parent (n : NsRef) : Option NsRef :=
  match n.ancestors with
  | [] => none
  | a :: rest => some ⟨a, rest⟩

/-- The input type graph.  `intrinsicName` models the result of the
compiler call `getIntrinsicModelName(program, type)`;
`templateArguments` keeps only presence and length, the only two
observations the embedded code makes of it; `iface` models the
truthiness of `operation.interface`. -/
inductive Ty where
  | model (intrinsicName : Option String) (name : String)
      (templateArguments : Option Nat) (ns : Option NsRef)
  | namespaceTy (n : NsRef)
  | modelProperty (name : String)
  | booleanLit (b : Bool)
  | stringLit (s : String)
  | numericLit (n : Nat)
  | operation (name : String) (iface : Bool) (ns : Option NsRef)
  | interfaceTy (name : String) (ns : Option NsRef)
  | enumTy (name : String) (ns : Option NsRef)
  | enumMember (name : String)
  | union (name : Option String) (templateArguments : Option Nat) (ns : Option NsRef)
  | unionVariant (name : String)
  | tuple (arity : Nat)
deriving DecidableEq, Repr

/-- The `.namespace` property as read by `setContextForType`; for a
namespace it is the parent namespace. -/
def tyNamespaceOf : Ty → Option NsRef
  | .model _ _ _ ns => ns
  | .namespaceTy n => n.parent
  | .operation _ _ ns => ns
  | .interfaceTy _ ns => ns
  | .enumTy _ ns => ns
  | .union _ _ ns => ns
  | _ => none

/-! ## `typeEmitterKey` (part_003 lines 574-636) -/

/-- Operation-key dispatch of `typeEmitterKey`.  The `Model` branch
first consults the intrinsic name, then the literal names, then the
template arguments; the `Union` branch first tests name truthiness
(`!type.name` is true for a missing or empty name). -/
def typeEmitterKey : Ty → String
  | .model intrinsicName name templateArguments _ =>
    if intrinsicName.isSome then "modelScalar"
    else if name = "" ∨ name = "Array" then "modelLiteral"
    else if templateArguments = none ∨ templateArguments = some 0 then
      "modelDeclaration"
    else "modelInstantiation"
  | .namespaceTy _ => "namespace"
  | .modelProperty _ => "modelPropertyLiteral"
  | .booleanLit _ => "booleanLiteral"
  | .stringLit _ => "stringLiteral"
  | .numericLit _ => "numericLiteral"
  | .operation _ iface _ =>
    if iface then "interfaceOperationDeclaration" else "operationDeclaration"
  | .interfaceTy _ _ => "interfaceDeclaration"
  | .enumTy _ _ => "enumDeclaration"
  | .enumMember _ => "enumMember"
  | .union name templateArguments _ =>
    if name = none ∨ name = some "" then "unionLiteral"
    else if templateArguments = none ∨ templateArguments = some 0 then
      "unionDeclaration"
    else "unionInstantiation"
  | .unionVariant _ => "unionVariant"
  | .tuple _ => "tupleLiteral"

/-- The exempt set `noReferenceContext` (part_003 lines 708-715). -/
def noReferenceContext : List String :=
  ["booleanLiteral", "stringLiteral", "numericLiteral", "modelScalar",
   "enumDeclaration", "enumMember"]

/-- `keyHasReferenceContext` (part_003 lines 717-719). -/
def keyHasReferenceContext (key : String) : Bool :=
  ¬ noReferenceContext.contains key

/-! ## `isDeclaration` and the enclosure stack (part_003 lines 475-490, 654-669) -/

/-- `isDeclaration`: the model branch is
`type.name ? type.name !== "" && type.name !== "Array" : false` and the
union branch is `type.name ? type.name !== "" : false`. -/
def isDeclaration : Ty → Bool
  | .namespaceTy _ => true
  | .interfaceTy _ _ => true
  | .enumTy _ _ => true
  | .operation _ _ _ => true
  | .model _ name _ _ =>
    if name = "" then false else (name ≠ "" && name ≠ "Array")
  | .union name _ _ =>
    match name with
    | none => false
    | some nm => if nm = "" then false else nm ≠ ""
  | _ => false

/-- The while loop of `setContextForType`: starting from
`type.namespace`, unshift each namespace onto the accumulator until a
namespace with the empty name (the global namespace) is reached. -/
def nsUnshiftLoop : Option NsRef → List Ty → List Ty
  | none, acc => acc
  | some n, acc =>
    if n.name = "" then acc
    else nsUnshiftLoop n.parent (Ty.namespaceTy n :: acc)
termination_by o _ => (Option.map (fun n => n.ancestors.length + 1) o).getD 0
decreasing_by
  simp only [NsRef.parent]
  cases h : n.ancestors with
  | nil => simp [h]
  | cons a rest => simp [h]

/-- The enclosure-stack computation at the head of `setContextForType`
(part_003 lines 476-490): declarations reset the stack to their
namespace chain followed by themselves, every other type is appended
to the previous stack. -/
def newTypeStackFor (type : Ty) (lexicalTypeStack : List Ty) : List Ty :=
  if isDeclaration type then nsUnshiftLoop (tyNamespaceOf type) [type]
  else lexicalTypeStack ++ [type]

/-- Specification-side view used by claim C6: the list of enclosing
namespaces of a type, innermost first, obtained by following parent
pointers. -/
def enclosureChain : Option NsRef → List NsRef
  | none => []
  | some n => n :: enclosureChain n.parent
termination_by o => (Option.map (fun n => n.ancestors.length + 1) o).getD 0
decreasing_by
  simp only [NsRef.parent]
  cases h : n.ancestors with
  | nil => simp [h]
  | cons a rest => simp [h]

/-- Specification-side view used by claim C6: the chain of non-empty
enclosing namespaces of a type, from outermost to innermost (the walk
stops at the first unnamed namespace, i.e. the global namespace). -/
def nonEmptyEnclosingNamespaces (type : Ty) : List Ty :=
  (((enclosureChain (tyNamespaceOf type)).takeWhile
      (fun n => n.name ≠ "")).reverse).map Ty.namespaceTy

/-! ## `emitProgram` (part_003 lines 305-344) -/

/-- The global namespace as handed to `emitProgram` by
`program.getGlobalNamespaceType()`: insertion-ordered member
collections. -/
structure GlobalNs where
  namespaces : List NsRef
  models : List Ty
  operations : List Ty
  enums : List Ty
  unions : List Ty
  interfaces : List Ty
deriving Repr

/-- Options of `emitProgram`. -/
structure EmitProgramOptions where
  emitGlobalNamespace : Bool
  emitCadlNamespace : Bool
deriving Repr

/-- One of the filtered for-of loops of `emitProgram`, written in the
accumulating style of the source: each element that passes the guard
is passed to `emitType`, i.e. appended to the visit list. -/
def walkLoop (guard : Ty → Bool) (items : List Ty) (acc : List Ty) : List Ty :=
  items.foldl (fun acc t => if guard t then acc ++ [t] else acc) acc

/-- `emitProgram`, producing the ordered list of types passed to
`emitType`.  `itd` models the compiler predicate
`isTemplateDeclaration` (an external collaborator of this repository:
true for a declared-but-uninstantiated template). -/
def emitProgram (options : EmitProgramOptions) (itd : Ty → Bool)
    (g : GlobalNs) : List Ty :=
  if options.emitGlobalNamespace then [Ty.namespaceTy ⟨"", []⟩]
  else
    let acc := walkLoop
      (fun t => match t with
        | .namespaceTy n => ¬ (n.name = "Cadl" && ¬ options.emitCadlNamespace)
        | _ => true)
      (g.namespaces.map Ty.namespaceTy) []
    let acc := walkLoop (fun t => ¬ itd t) g.models acc
    let acc := walkLoop (fun t => ¬ itd t) g.operations acc
    let acc := walkLoop (fun _ => true) g.enums acc
    let acc := walkLoop (fun t => ¬ itd t) g.unions acc
    walkLoop (fun t => ¬ itd t) g.interfaces acc

/-! ## The interner (part_003 lines 675-706)

Plain javascript objects are embedded as a record of fields together
with an identity tag, so that the canonicalisation property (`intern`
returns the *same object*) is observable: two `Obj`s are the same
object exactly when they are equal, tag included. -/

/-- A javascript object: identity tag plus own enumerable fields. -/
structure Obj where
  tag : Nat
  fields : List (String × Nat)
deriving DecidableEq, Repr

/-- Field lookup (`object[key]`). -/
def Obj.get (o : Obj) (k : String) : Option Nat := rlookup o.fields k

/-- The comparison loop of `intern`: same number of entries, and every
entry of the known object is found in the candidate with an identical
value. -/
def objMatches (ko o : Obj) : Bool :=
  ko.fields.length = o.fields.length &&
    ko.fields.all (fun kv => o.get kv.1 = some kv.2)

/-- State of one interner: the shared empty sentinel and the known
objects in insertion order. -/
structure InternerState where
  emptyObject : Obj
  knownObjects : List Obj
deriving Repr

/-- The state `createInterner` starts from. -/
def createInterner : InternerState := ⟨⟨0, []⟩, []⟩

/-- `intern(object)`: empty records map to the shared sentinel,
otherwise the first known object whose entries all match is returned,
and a miss records the argument as a new known object. -/
def intern (s : InternerState) (o : Obj) : Obj × InternerState :=
  if o.fields.length = 0 then (s.emptyObject, s)
  else
    match s.knownObjects.find? (fun ko => objMatches ko o) with
    | some ko => (ko, s)
    | none => (o, { s with knownObjects := s.knownObjects ++ [o] })

/-- Value equivalence of two objects in the sense of claim C9: the
same key set and, key by key, identical values. -/
def objEquiv (a b : Obj) : Prop :=
  (a.fields.map Prod.fst).toFinset = (b.fields.map Prod.fst).toFinset ∧
    ∀ k, a.get k = b.get k

/-- Well-formedness of an object: no duplicate keys. -/
def ObjWF (o : Obj) : Prop := (o.fields.map Prod.fst).Nodup

/-- Interner invariant: the sentinel is the empty object, every known
object is well formed and non-empty, and no two distinct known objects
match each other. -/
structure InternInv (s : InternerState) : Prop where
  emptyFields : s.emptyObject.fields = []
  wf : ∀ o ∈ s.knownObjects, ObjWF o
  nonempty : ∀ o ∈ s.knownObjects, o.fields ≠ []
  pairwise : s.knownObjects.Pairwise (fun a b => objMatches a b = false)

/-! ## Placeholder (src/src/placeholder.ts)

The class holds only a listener array: `setValue` synchronously calls
every currently registered listener with the value, and `onValue`
appends a listener.  Nothing is stored and a registration never fires
a callback by itself.  Listeners are embedded as identifiers and a
notification is the event pair (listener, value). -/

/-- Placeholder state: registered listener identifiers in order. -/
structure PhState where
  listeners : List Nat
deriving DecidableEq, Repr

/-- `setValue(value)`: notify the listeners registered so far.  The
state is unchanged (the class stores no value). -/
def Placeholder.setValue (v : Nat) (s : PhState) :
    PhState × List (Nat × Nat) :=
  (s, s.listeners.map (fun l => (l, v)))

/-- `onValue(cb)`: append the listener; no callback fires at
registration time. -/
def Placeholder.onValue (l : Nat) (s : PhState) :
    PhState × List (Nat × Nat) :=
  (⟨s.listeners ++ [l]⟩, [])

/-- A straight-line use of one placeholder. -/
inductive PhOp where
  | set (v : Nat)
  | onV (l : Nat)
deriving DecidableEq, Repr

/-- Run a sequence of placeholder operations, collecting every
notification event in order. -/
def runPhOps : List PhOp → PhState → PhState × List (Nat × Nat)
  | [], s => (s, [])
  | .set v :: rest, s =>
    let r := Placeholder.setValue v s
    let r2 := runPhOps rest r.1
    (r2.1, r.2 ++ r2.2)
  | .onV l :: rest, s =>
    let r := Placeholder.onValue l s
    let r2 := runPhOps rest r.1
    (r2.1, r.2 ++ r2.2)

/-! ## Context state and emitter state (part_003 lines 50-81)

`ContextState` is the pair of context records.  The source interns
every context record it builds, so that identity-keyed maps
(`typeToEmitEntity`, `knownContexts`) in fact key on value equality;
the embedding therefore represents contexts directly by their
(canonically sorted) record values and keys maps by decidable
equality. -/

structure CtxState where
  lexicalContext : Rec
  referenceContext : Rec
deriving DecidableEq, Repr

/-- A key of the `typeToEmitEntity` memo: operation key, type,
context, per the keyer at part_003 lines 53-58. -/
abbrev MemoKey := String × Ty × CtxState

/-- The emit entities that arise in the `emitType` fragment: the
transient circular marker and a raw-code result (every bare value a
user method returns is lifted to `RawCode` by `liftToRawCode`). -/
inductive DEntity where
  | circularEmit (key : MemoKey)
  | rawCode (v : Nat)
deriving DecidableEq, Repr

/-- Association-list lookup standing in for `CustomKeyMap.get`. -/
def alookup {α β : Type} [DecidableEq α] : List (α × β) → α → Option β
  | [], _ => none
  | (k1, v1) :: rest, k => if k1 = k then some v1 else alookup rest k

/-- Association-list update standing in for `CustomKeyMap.set`:
replace the binding when present, append otherwise. -/
def aset {α β : Type} [DecidableEq α] : List (α × β) → α → β → List (α × β)
  | [], k, v => [(k, v)]
  | (k1, v1) :: rest, k, v =>
    if k1 = k then (k, v) :: rest else (k1, v1) :: aset rest k v

/-- The mutable state of one asset emitter, restricted to the
`emitType` fragment (the circular-reference machinery of
`emitTypeReference` is embedded separately below): the memo table, the
context-fold memo, the two frame variables, the lazy program context,
the pending incoming reference context, and a trace of the
user-operation invocations the dispatcher has performed, in order. -/
structure EmSt where
  typeToEmitEntity : List (MemoKey × DEntity)
  knownContexts : List ((Ty × CtxState) × CtxState)
  lexicalTypeStack : List Ty
  context : CtxState
  programContext : Option CtxState
  incomingReferenceContext : Option Rec
  trace : List MemoKey
deriving DecidableEq, Repr

/-- The state `createAssetEmitter` starts from (part_003 lines 74-80). -/
def initEmSt : EmSt :=
  { typeToEmitEntity := []
    knownContexts := []
    lexicalTypeStack := []
    context := ⟨[], []⟩
    programContext := none
    incomingReferenceContext := none
    trace := [] }

/-- Body of a user emitter operation: a straight-line sequence of
re-entrant `emitType` calls followed by the bare value it returns. -/
inductive UserBody where
  | ret (v : Nat)
  | seqEmitType (t : Ty) (rest : UserBody)
deriving DecidableEq, Repr

/-- A user `TypeEmitter` subclass, as far as the embedded fragment
consults it: one operation body per (operation key, type), the
`programContext` record, and the per-key lexical and reference context
methods. -/
structure UserEm where
  body : String → Ty → UserBody
  programContext : Rec
  lexCtx : String → Ty → Rec
  refCtx : String → Ty → Rec

/-! ## `setContextForType` (part_003 lines 475-549) -/

/-- The loop state of the context fold: the `context` variable, the
`knownContexts` memo and the `incomingReferenceContext` cell. -/
structure FoldSt where
  context : CtxState
  knownContexts : List ((Ty × CtxState) × CtxState)
  incomingReferenceContext : Option Rec
deriving DecidableEq, Repr

/-- One iteration of the `for (const contextChainEntry of
lexicalTypeStack)` loop: merge the incoming reference context at the
entry equal to the dispatched type, consult the `knownContexts` memo,
otherwise call the user context methods and fold their records in. -/
def contextFoldStep (E : UserEm) (type : Ty) (f : FoldSt) (entry : Ty) :
    FoldSt :=
  let f :=
    match f.incomingReferenceContext with
    | some inc =>
      if entry = type then
        { f with
          context :=
            ⟨f.context.lexicalContext, mergeRec f.context.referenceContext inc⟩
          incomingReferenceContext := none }
      else f
    | none => f
  match alookup f.knownContexts (entry, f.context) with
  | some seenContext => { f with context := seenContext }
  | none =>
    let key := typeEmitterKey entry
    let newContext := normRec (E.lexCtx key entry)
    let newReferenceContext :=
      if keyHasReferenceContext key then normRec (E.refCtx key entry) else []
    let newContextState : CtxState :=
      ⟨mergeRec f.context.lexicalContext newContext,
       mergeRec f.context.referenceContext newReferenceContext⟩
    { context := newContextState
      knownContexts := aset f.knownContexts (entry, f.context) newContextState
      incomingReferenceContext := f.incomingReferenceContext }

/-- `setContextForType(type)`: recompute the enclosure stack, lazily
compute the program context, and fold the per-enclosure context
contributions over the stack. -/
def setContextForType (E : UserEm) (type : Ty) (st : EmSt) : EmSt :=
  let newTypeStack := newTypeStackFor type st.lexicalTypeStack
  let pc :=
    match st.programContext with
    | some pc => pc
    | none => ⟨normRec E.programContext, []⟩
  let f :=
    newTypeStack.foldl (contextFoldStep E type)
      ⟨pc, st.knownContexts, st.incomingReferenceContext⟩
  { st with
    lexicalTypeStack := newTypeStack
    programContext := some pc
    context := f.context
    knownContexts := f.knownContexts
    incomingReferenceContext := f.incomingReferenceContext }

/-! ## The dispatcher `invokeTypeEmitter` (part_003 lines 404-473)

The embedding is an interpreter with a fuel parameter providing the
termination measure; every theorem below is quantified over the fuel.
An exhausted interpreter returns a dummy entity and leaves the state
untouched (so that an invocation is never recorded without the user
operation actually running). -/

/-- Run a user operation body, dispatching each of its re-entrant
`emitType` calls through the supplied dispatcher. -/
def runBodyWith (inv : String → Ty → EmSt → DEntity × EmSt) :
    UserBody → EmSt → Nat × EmSt
  | .ret v, st => (v, st)
  | .seqEmitType t rest, st =>
    let r := inv (typeEmitterKey t) t st
    runBodyWith inv rest r.2

/-- `invokeTypeEmitter(method, type, ...)`: inside the
`withTypeContext` frame (save, `setContextForType`, run, restore),
look the key up in the memo; a hit returns the stored entity, a miss
stores the `CircularEmit` marker, runs the user operation (recorded in
the trace), lifts its result, and — after the frame is restored —
`handleCompletedEntity` overwrites the memo with the real entity. -/
def invokeTypeEmitter : Nat → UserEm → String → Ty → EmSt → DEntity × EmSt
  | 0, _, _, _, st => (.rawCode 0, st)
  | fuel + 1, E, method, type, st =>
    let oldContext := st.context
    let oldTypeStack := st.lexicalTypeStack
    let st1 := setContextForType E type st
    let emitEntityKey : MemoKey := (method, type, st1.context)
    match alookup st1.typeToEmitEntity emitEntityKey with
    | some seenEmitEntity =>
      (seenEmitEntity,
       { st1 with context := oldContext, lexicalTypeStack := oldTypeStack })
    | none =>
      let st2 :=
        { st1 with
          typeToEmitEntity :=
            aset st1.typeToEmitEntity emitEntityKey
              (.circularEmit emitEntityKey)
          trace := st1.trace ++ [emitEntityKey] }
      let r :=
        runBodyWith (fun m t s => invokeTypeEmitter fuel E m t s)
          (E.body method type) st2
      let entity := DEntity.rawCode r.1
      let st3 :=
        { r.2 with context := oldContext, lexicalTypeStack := oldTypeStack }
      let st4 :=
        { st3 with
          typeToEmitEntity := aset st3.typeToEmitEntity emitEntityKey entity }
      (entity, st4)

/-- The memo-miss path of the dispatcher, written out as its own
function (definitionally the `none` branch of `invokeTypeEmitter` at
positive fuel): store the circular marker, record and run the user
operation, lift its result, restore the frame, overwrite the memo. -/
def dispatchMiss (fuel : Nat) (E : UserEm) (m : String) (t : Ty) (st : EmSt) :
    DEntity × EmSt :=
  let st1 := setContextForType E t st
  let key : MemoKey := (m, t, st1.context)
  let st2 :=
    { st1 with
      typeToEmitEntity := aset st1.typeToEmitEntity key (.circularEmit key)
      trace := st1.trace ++ [key] }
  let r := runBodyWith (fun m1 t1 s1 => invokeTypeEmitter fuel E m1 t1 s1)
    (E.body m t) st2
  let entity := DEntity.rawCode r.1
  let st3 := { r.2 with context := st.context, lexicalTypeStack := st.lexicalTypeStack }
  (entity, { st3 with typeToEmitEntity := aset st3.typeToEmitEntity key entity })

/-- `emitType(type)` derives the operation key from the type and
dispatches (part_003 lines 275-303; the extra arguments it computes
are declaration names, which do not influence dispatch or memo). -/
def emitType (fuel : Nat) (E : UserEm) (t : Ty) (st : EmSt) :
    DEntity × EmSt :=
  invokeTypeEmitter fuel E (typeEmitterKey t) t st

/-- Run a straight-line client program (a sequence of top-level
`emitType` calls, which is also how a user body runs). -/
def runBody (fuel : Nat) (E : UserEm) (b : UserBody) (st : EmSt) :
    Nat × EmSt :=
  runBodyWith (fun m t s => invokeTypeEmitter fuel E m t s) b st

/-! ## `withTypeContext` with exceptions (part_003 lines 551-560)

The dispatcher above inlines `withTypeContext` for a callback that
cannot throw.  The general form of the source function is embedded
here: the callback returns an optional error together with the state
it leaves behind, and the two restoring assignments after `cb()` run
only when the callback returns normally — the source has no
try/finally. -/

def withTypeContext (E : UserEm) (type : Ty)
    (cb : EmSt → Option String × EmSt) (st : EmSt) :
    Option String × EmSt :=
  let oldContext := st.context
  let oldTypeStack := st.lexicalTypeStack
  let st1 := setContextForType E type st
  match cb st1 with
  | (none, st2) =>
    (none, { st2 with context := oldContext, lexicalTypeStack := oldTypeStack })
  | (some e, st2) => (some e, st2)

/-! ## Reference resolution (part_003 lines 149-262, 449-464, 562-572)

The target-value type `T` is instantiated to `String` for this part of
the embedding (the source fills a placeholder of a `NoEmit` reference
with the string value `""`).  Scopes are represented by their chain of
node identities from the root, flattening the `parentScope` pointers;
`===` on scopes becomes equality of these chains. -/

/-- A value of type `T | Placeholder<T>`; placeholders are identified
by their slot in the placeholder store. -/
inductive PVal where
  | strv (s : String)
  | phv (id : Nat)
deriving DecidableEq, Repr

/-- A scope, given by the identities of the scopes on the path from
its root to itself (itself last). -/
structure ScopeT where
  chain : List Nat
deriving DecidableEq, Repr

/-- `scopeChain(scope)` (part_003 lines 253-261): the path from the
root down to the scope. -/
def scopeChain (s : ScopeT) : List ScopeT :=
  (List.range s.chain.length).map (fun i => ⟨s.chain.take (i + 1)⟩)

/-- The `diffStart` while loop (part_003 lines 200-207): length of the
longest common prefix of the two chains. -/
def commonLen : List ScopeT → List ScopeT → Nat
  | a1 :: as, b1 :: bs => if a1 = b1 then commonLen as bs + 1 else 0
  | _, _ => 0

/-- A value stored in a context record of the reference fragment: the
`scope` entry holds a scope object, other entries are uninterpreted. -/
inductive CVal where
  | scopeV (s : ScopeT)
  | natV (n : Nat)
deriving DecidableEq, Repr

abbrev RecE := List (String × CVal)

/-- Context state for the reference fragment. -/
structure CtxStateE where
  lexicalContext : RecE
  referenceContext : RecE
deriving DecidableEq, Repr

/-- `currentScope()` (part_003 lines 637-643):
`context.referenceContext?.scope ?? context.lexicalContext?.scope ??
null`, where a present `scope` entry is a scope object. -/
def currentScope (c : CtxStateE) : Option ScopeT :=
  match alookup c.referenceContext "scope" with
  | some (CVal.scopeV s) => some s
  | _ =>
    match alookup c.lexicalContext "scope" with
    | some (CVal.scopeV s) => some s
    | _ => none

/-- `EmitterState` (src/src/types.ts lines 160-163): the snapshot a
waiter records. -/
structure EmitterStateE where
  lexicalTypeStack : List Ty
  context : CtxStateE
deriving DecidableEq, Repr

/-- A key of `waitingCircularRefs`: its keyer (part_003 lines 59-67)
uses only the method and the type, dropping the context component. -/
abbrev WKey := String × Ty

/-- An emit entity of the reference fragment. -/
inductive REntity where
  | decl (name : String) (scope : ScopeT) (value : PVal)
  | rawCodeE (value : PVal)
  | noEmit
  | circularE (key : WKey)
deriving DecidableEq, Repr

/-- A registered waiter: the saved frame plus the placeholder that the
registered `invokeReference` closure fills (the closure captures the
`placeholder` variable, which is assigned the freshly allocated
placeholder immediately after the push and before anything can
resolve). -/
structure Waiter where
  state : EmitterStateE
  phId : Nat
deriving DecidableEq, Repr

/-- Mutable state of the reference fragment: the two frame variables,
the waiter table, and the placeholder store (slot `i` holds the value
assigned to placeholder `i`, `none` while unresolved; fresh
placeholders are allocated at the end of the store). -/
structure RefSt where
  context : CtxStateE
  lexicalTypeStack : List Ty
  waitingCircularRefs : List (WKey × List Waiter)
  phs : List (Option String)
deriving DecidableEq, Repr

/-- `placeholder.setValue(v)` observed through the store. -/
def setPh (phs : List (Option String)) (i : Nat) (v : String) :
    List (Option String) :=
  phs.set i (some v)

/-- Result of the user `reference` method: a bare target value, a bare
placeholder, or an emitter result. -/
inductive RefRes where
  | val (s : String)
  | ph (id : Nat)
  | ent (e : REntity)
deriving DecidableEq, Repr

/-- The signature of the user `reference` operation:
`reference(entity, pathUp, pathDown, commonScope)`. -/
abbrev RefFn := REntity → List ScopeT → List ScopeT → Option ScopeT → RefRes

/-- The tail of `invokeReference` guarded by `if (placeholder)`
(part_003 lines 228-250): with no pending placeholder the reference is
returned as is; otherwise a circular result or a placeholder-valued
result is an error, a code or declaration result fills the placeholder
with its value, and `NoEmit` fills it with the empty string. -/
def finishRef (phId : Option Nat) (ref : REntity) (st : RefSt) :
    Except String (REntity × RefSt) :=
  match phId with
  | none => .ok (ref, st)
  | some i =>
    match ref with
    | .circularE _ => .error "still circular"
    | .noEmit => .ok (.noEmit, { st with phs := setPh st.phs i "" })
    | .rawCodeE (.phv _) => .error "Reference cannot return a placeholder"
    | .decl _ _ (.phv _) => .error "Reference cannot return a placeholder"
    | .rawCodeE (.strv s) =>
      .ok (.rawCodeE (.strv s), { st with phs := setPh st.phs i s })
    | .decl nm sc (.strv s) =>
      .ok (.decl nm sc (.strv s), { st with phs := setPh st.phs i s })

/-- `invokeReference(entity)` (part_003 lines 185-251).  `phId` is the
captured `placeholder` variable: `none` on the direct path, the
allocated placeholder when the closure runs as a waiter callback. -/
def invokeReference (refFn : RefFn) (phId : Option Nat) (entity : REntity)
    (st : RefSt) : Except String (REntity × RefSt) :=
  match entity with
  | .decl nm targetScope v =>
    match currentScope st.context with
    | none =>
      .error "Cannot generate a type reference without a current scope, ensure the current context has a scope"
    | some scope =>
      let targetChain := scopeChain targetScope
      let currentChain := scopeChain scope
      let diffStart := commonLen targetChain currentChain
      let pathUp := currentChain.drop diffStart
      let pathDown := targetChain.drop diffStart
      let commonScope :=
        if diffStart = 0 then none else targetChain.get? (diffStart - 1)
      match refFn (.decl nm targetScope v) pathUp pathDown commonScope with
      | .ph _ => .error "Still circular"
      | .val s => finishRef phId (.rawCodeE (.strv s)) st
      | .ent e => finishRef phId e st
  | _ => .ok (entity, st)

/-- The part of `emitTypeReference` that follows the dispatch of the
target (part_003 lines 160-181): a `CircularEmit` result registers a
waiter recording the current frame and synchronously returns a
`RawCode` wrapping a fresh placeholder; any other result goes straight
to `invokeReference` with no pending placeholder. -/
def emitTypeReferenceAfterDispatch (refFn : RefFn) (entity : REntity)
    (st : RefSt) : Except String (REntity × RefSt) :=
  match entity with
  | .circularE key =>
    let waiting := (alookup st.waitingCircularRefs key).getD []
    let phId := st.phs.length
    let waiter : Waiter := ⟨⟨st.lexicalTypeStack, st.context⟩, phId⟩
    let st1 :=
      { st with
        waitingCircularRefs :=
          aset st.waitingCircularRefs key (waiting ++ [waiter])
        phs := st.phs ++ [none] }
    .ok (.rawCodeE (.phv phId), st1)
  | _ => invokeReference refFn none entity st

/-- `withContext(newContext, cb)` (part_003 lines 562-572).  Note that
both `oldContext` and `oldTypeStack` are read from `newContext`, so
after the callback the function re-installs the saved state rather
than the state that was current before the call. -/
def withContext (newContext : EmitterStateE)
    (cb : RefSt → Except String RefSt) (st : RefSt) :
    Except String RefSt :=
  let oldContext := newContext.context
  let oldTypeStack := newContext.lexicalTypeStack
  let st1 :=
    { st with
      context := newContext.context
      lexicalTypeStack := newContext.lexicalTypeStack }
  match cb st1 with
  | .error e => .error e
  | .ok st2 =>
    .ok { st2 with context := oldContext, lexicalTypeStack := oldTypeStack }

/-- The waiter loop of `handleCompletedEntity` (part_003 lines
452-457): each recorded callback runs inside `withContext` of its
saved frame, with the completed entity. -/
def drainLoop (refFn : RefFn) (entity : REntity) :
    List Waiter → RefSt → Except String RefSt
  | [], st => .ok st
  | w :: ws, st =>
    match
      withContext w.state
        (fun s => (invokeReference refFn (some w.phId) entity s).map Prod.snd)
        st
    with
    | .error e => .error e
    | .ok st1 => drainLoop refFn entity ws st1

/-- The waiter-draining part of `handleCompletedEntity` (part_003
lines 449-459): run every waiter registered under the key, then clear
the list (the clearing statement runs only when no callback threw). -/
def drainCircularRefs (refFn : RefFn) (key : WKey) (entity : REntity)
    (st : RefSt) : Except String RefSt :=
  match alookup st.waitingCircularRefs key with
  | none => .ok st
  | some waitingRefCbs =>
    match drainLoop refFn entity waitingRefCbs st with
    | .error e => .error e
    | .ok st1 =>
      .ok { st1 with
            waitingCircularRefs := aset st1.waitingCircularRefs key [] }

/-! ## Specification-side definitions used to state the claims -/

/-- Declaration types in the words of claim C6: Namespace, Interface,
Enum, Operation, a Model whose name is neither empty nor Array, or a
Union with a nonempty name. -/
def isDeclarationSpec (t : Ty) : Prop :=
  match t with
  | .namespaceTy _ => True
  | .interfaceTy _ _ => True
  | .enumTy _ _ => True
  | .operation _ _ _ => True
  | .model _ name _ _ => name ≠ "" ∧ name ≠ "Array"
  | .union name _ _ => ∃ nm, name = some nm ∧ nm ≠ ""
  | _ => False

/-- Invariant of the dispatcher state: no user operation was invoked
twice for one memo key, and every invoked key has a memo entry. -/
def InvEm (st : EmSt) : Prop :=
  st.trace.Nodup ∧ ∀ k ∈ st.trace, (alookup st.typeToEmitEntity k).isSome

/-- Specification-side description of what a waiter callback does,
used by claim C2: the value the callback assigns to the pending
placeholder, computed from the resolved entity and the context
captured at registration time.  `ok none` means the callback returns
without touching the placeholder (a non-declaration entity), `ok (some
v)` means the placeholder is filled with `v`. -/
def renderedReference (refFn : RefFn) (ctx : CtxStateE) (entity : REntity) :
    Except String (Option String) :=
  match entity with
  | .decl nm targetScope v =>
    match currentScope ctx with
    | none =>
      .error "Cannot generate a type reference without a current scope, ensure the current context has a scope"
    | some scope =>
      let targetChain := scopeChain targetScope
      let currentChain := scopeChain scope
      let diffStart := commonLen targetChain currentChain
      let commonScope :=
        if diffStart = 0 then none else targetChain.get? (diffStart - 1)
      match
        refFn (.decl nm targetScope v) (currentChain.drop diffStart)
          (targetChain.drop diffStart) commonScope
      with
      | .ph _ => .error "Still circular"
      | .val s => .ok (some s)
      | .ent (.circularE _) => .error "still circular"
      | .ent .noEmit => .ok (some "")
      | .ent (.rawCodeE (.phv _)) => .error "Reference cannot return a placeholder"
      | .ent (.decl _ _ (.phv _)) => .error "Reference cannot return a placeholder"
      | .ent (.rawCodeE (.strv s)) => .ok (some s)
      | .ent (.decl _ _ (.strv s)) => .ok (some s)
  | _ => .ok none

/-! ## Concrete instances used by counterexamples and witnesses -/

/-- A minimal user emitter whose every operation returns a bare value
and whose lexical context method contributes one entry. -/
def cUser : UserEm :=
  { body := fun _ _ => .ret 5
    programContext := []
    lexCtx := fun _ _ => [("x", 1)]
    refCtx := fun _ _ => [] }

/-- A user emitter contributing no context at all. -/
def cUserTrivial : UserEm :=
  { body := fun _ _ => .ret 5
    programContext := []
    lexCtx := fun _ _ => []
    refCtx := fun _ _ => [] }

/-- A dispatcher state whose current context carries a marker entry. -/
def cSt : EmSt := { initEmSt with context := ⟨[("marker", 9)], []⟩ }

/-- A user operation that throws. -/
def throwingCb : EmSt → Option String × EmSt := fun st => (some "boom", st)

/-- The dispatcher state after one emission of a string literal. -/
def cStAfterFirst : EmSt :=
  (invokeTypeEmitter 1 cUserTrivial "stringLiteral" (.stringLit "x") initEmSt).2

/-! # Theorems -/

/-! ## Claim C5 — the dispatch table -/

/-- Claim C5: the dispatcher derives the operation key exactly per the
dispatch table.  A Model that is intrinsic maps to modelScalar; a
non-intrinsic Model named "" or "Array" maps to modelLiteral; a
non-intrinsic Model with a proper name and no template arguments
(undefined or empty) maps to modelDeclaration and any other Model to
modelInstantiation; a Union with no (or an empty) name maps to
unionLiteral, a named Union with no template arguments to
unionDeclaration, otherwise unionInstantiation; an Operation nested in
an interface maps to interfaceOperationDeclaration, otherwise
operationDeclaration. -/
theorem typeEmitterKey_dispatch_table :
    (∀ i name targs ns,
      typeEmitterKey (.model (some i) name targs ns) = "modelScalar")
    ∧ (∀ name targs ns, name = "" ∨ name = "Array" →
        typeEmitterKey (.model none name targs ns) = "modelLiteral")
    ∧ (∀ name targs ns, name ≠ "" → name ≠ "Array" →
        targs = none ∨ targs = some 0 →
        typeEmitterKey (.model none name targs ns) = "modelDeclaration")
    ∧ (∀ name targs ns, name ≠ "" → name ≠ "Array" →
        targs ≠ none → targs ≠ some 0 →
        typeEmitterKey (.model none name targs ns) = "modelInstantiation")
    ∧ (∀ name targs ns, name = none ∨ name = some "" →
        typeEmitterKey (.union name targs ns) = "unionLiteral")
    ∧ (∀ nm targs ns, nm ≠ "" → targs = none ∨ targs = some 0 →
        typeEmitterKey (.union (some nm) targs ns) = "unionDeclaration")
    ∧ (∀ nm targs ns, nm ≠ "" → targs ≠ none → targs ≠ some 0 →
        typeEmitterKey (.union (some nm) targs ns) = "unionInstantiation")
    ∧ (∀ nm ns, typeEmitterKey (.operation nm true ns) =
        "interfaceOperationDeclaration")
    ∧ (∀ nm ns, typeEmitterKey (.operation nm false ns) =
        "operationDeclaration") := by
  refine ⟨?_, ?_, ?_, ?_, ?_, ?_, ?_, ?_, ?_⟩ <;> intros <;>
    simp_all [typeEmitterKey]

/-- Witness for claim C5: the guarded branches of the table at
concrete types. -/
theorem typeEmitterKey_dispatch_table_witness :
    typeEmitterKey (.model none "Array" (some 1) none) = "modelLiteral"
    ∧ typeEmitterKey (.model none "Foo" (some 0) none) = "modelDeclaration"
    ∧ typeEmitterKey (.model none "Foo" (some 2) none) = "modelInstantiation"
    ∧ typeEmitterKey (.union (some "") none none) = "unionLiteral"
    ∧ typeEmitterKey (.union (some "U") none none) = "unionDeclaration"
    ∧ typeEmitterKey (.union (some "U") (some 1) none) = "unionInstantiation" :=
  ⟨typeEmitterKey_dispatch_table.2.1 "Array" (some 1) none (Or.inr rfl),
   typeEmitterKey_dispatch_table.2.2.1 "Foo" (some 0) none
     (by decide) (by decide) (Or.inr rfl),
   typeEmitterKey_dispatch_table.2.2.2.1 "Foo" (some 2) none
     (by decide) (by decide) (by decide) (by decide),
   typeEmitterKey_dispatch_table.2.2.2.2.1 (some "") none none (Or.inr rfl),
   typeEmitterKey_dispatch_table.2.2.2.2.2.1 "U" none none
     (by decide) (Or.inl rfl),
   typeEmitterKey_dispatch_table.2.2.2.2.2.2.1 "U" (some 1) none
     (by decide) (by decide) (by decide)⟩

/-! ## Claim C4 — placeholder listeners

The source class stores no value: `setValue` only notifies the
listeners registered so far and `onValue` only appends.  A listener
registered after `setValue` therefore receives nothing, contrary to
the claim. -/

/-- Splitting a run of placeholder operations. -/
theorem runPhOps_append (a b : List PhOp) (s : PhState) :
    runPhOps (a ++ b) s =
      ((runPhOps b (runPhOps a s).1).1,
       (runPhOps a s).2 ++ (runPhOps b (runPhOps a s).1).2) := by
  induction a generalizing s with
  | nil => simp [runPhOps]
  | cons op rest ih =>
    cases op with
    | set v =>
      simp only [List.cons_append, runPhOps, List.append_eq]
      rw [ih]
      simp [List.append_assoc]
    | onV l =>
      simp only [List.cons_append, runPhOps, List.append_eq]
      rw [ih]
      simp [List.append_assoc]

/-- Counterexample for claim C4: registering listener 0 after
`setValue 42` produces no notification at all — the late listener does
not receive the value immediately upon registration (the class stores
no value and `onValue` never invokes the callback). -/
theorem placeholder_late_listener_counterexample :
    (runPhOps [PhOp.set 42, PhOp.onV 0] ⟨[]⟩).2 = []
    ∧ (0, 42) ∉ (runPhOps [PhOp.set 42, PhOp.onV 0] ⟨[]⟩).2
    ∧ (runPhOps [PhOp.set 42, PhOp.onV 0] ⟨[]⟩).1.listeners = [0] := by
  decide

/-- Amended claim C4: a listener registered at any point before a
`setValue` call is notified with the value when `setValue` runs, and a
listener registered after `setValue` receives nothing upon
registration (the registration step contributes no event — the class
stores no value and `onValue` never fires a callback). -/
theorem placeholder_listeners :
    (∀ ops l v s0, l ∈ (runPhOps ops s0).1.listeners →
      (l, v) ∈ (runPhOps (ops ++ [PhOp.set v]) s0).2)
    ∧ (∀ ops l s0,
        (runPhOps (ops ++ [PhOp.onV l]) s0).2 = (runPhOps ops s0).2) := by
  constructor
  · intro ops l v s0 hl
    rw [runPhOps_append]
    refine List.mem_append.mpr (Or.inr ?_)
    have hv : (runPhOps [PhOp.set v] (runPhOps ops s0).1).2 =
        (runPhOps ops s0).1.listeners.map (fun x => (x, v)) ++ [] := rfl
    rw [hv, List.append_nil]
    exact List.mem_map.mpr ⟨l, hl, rfl⟩
  · intro ops l s0
    rw [runPhOps_append]
    have hv : (runPhOps [PhOp.onV l] (runPhOps ops s0).1).2 =
        ([] : List (Nat × Nat)) := rfl
    rw [hv, List.append_nil]

/-- Witness for amended claim C4: listener 3 registered before the
assignment receives the value 7. -/
theorem placeholder_listeners_witness :
    (3, 7) ∈ (runPhOps ([PhOp.onV 3] ++ [PhOp.set 7]) ⟨[]⟩).2 :=
  placeholder_listeners.1 [PhOp.onV 3] 3 7 ⟨[]⟩ (by decide)

/-! ## Claim C10 — `withContext` restores the saved state -/

/-- Let-free reading of `withContext` (the two saved variables are
constants). -/
theorem withContext_eq (saved : EmitterStateE)
    (cb : RefSt → Except String RefSt) (st : RefSt) :
    withContext saved cb st =
      match cb { st with context := saved.context, lexicalTypeStack := saved.lexicalTypeStack } with
      | .error e => .error e
      | .ok st2 =>
        .ok { st2 with context := saved.context, lexicalTypeStack := saved.lexicalTypeStack } := rfl

/-- Every normal return of `withContext` installs the saved frame. -/
theorem withContext_ok (saved : EmitterStateE) (cb : RefSt → Except String RefSt)
    (st st1 : RefSt) (h : withContext saved cb st = .ok st1) :
    st1.context = saved.context
    ∧ st1.lexicalTypeStack = saved.lexicalTypeStack := by
  rw [withContext_eq] at h
  split at h
  · cases h
  · cases h
    exact ⟨rfl, rfl⟩

/-- Unfolding one step of the waiter loop. -/
theorem drainLoop_cons_ok (refFn : RefFn) (entity : REntity) (w0 : Waiter)
    (rest : List Waiter) (st st1 : RefSt)
    (h : drainLoop refFn entity (w0 :: rest) st = .ok st1) :
    ∃ stx,
      withContext w0.state
        (fun s => (invokeReference refFn (some w0.phId) entity s).map Prod.snd)
        st = .ok stx
      ∧ drainLoop refFn entity rest stx = .ok st1 := by
  unfold drainLoop at h
  split at h
  · cases h
  · rename_i stx heq
    exact ⟨stx, heq, h⟩

/-- Claim C10: `withContext(saved, cb)` installs the saved frame, runs
the callback, and then re-installs the same saved frame (both restore
variables are read from the saved state, not from the state active
before the call); consequently draining the waiting circular-reference
callbacks leaves the frame equal to the saved state of the last
drained waiter, whatever the frame was before draining. -/
theorem withContext_installs_saved_state :
    (∀ saved cb st st1, withContext saved cb st = .ok st1 →
      st1.context = saved.context
      ∧ st1.lexicalTypeStack = saved.lexicalTypeStack)
    ∧ (∀ refFn entity ws st st1 w, ws.getLast? = some w →
        drainLoop refFn entity ws st = .ok st1 →
        st1.context = w.state.context
        ∧ st1.lexicalTypeStack = w.state.lexicalTypeStack) := by
  refine ⟨withContext_ok, ?_⟩
  intro refFn entity ws
  induction ws with
  | nil => intro st st1 w hlast hdrain; cases hlast
  | cons w0 rest ih =>
    intro st st1 w hlast hdrain
    obtain ⟨stx, hw, hrest⟩ := drainLoop_cons_ok refFn entity w0 rest st st1 hdrain
    cases rest with
    | nil =>
      simp only [List.getLast?_singleton, Option.some.injEq] at hlast
      subst hlast
      unfold drainLoop at hrest
      cases hrest
      exact withContext_ok _ _ _ _ hw
    | cons r rs =>
      have hlast2 : (r :: rs).getLast? = some w := by
        rw [← hlast, List.getLast?_cons_cons]
      exact ih stx st1 w hlast2 hrest

/-- Witness for claim C10: draining one waiter whose saved context
carries a marker leaves that marker installed, although the pre-drain
context was different. -/
theorem withContext_installs_saved_state_witness :
    (drainLoop (fun _ _ _ _ => RefRes.val "ref") REntity.noEmit
        [⟨⟨[], ⟨[("k", CVal.natV 1)], []⟩⟩, 0⟩]
        ⟨⟨[], []⟩, [], [], [none]⟩ = Except.ok
          ⟨⟨[("k", CVal.natV 1)], []⟩, [], [], [none]⟩)
    ∧ (⟨⟨[("k", CVal.natV 1)], []⟩, [], [], [none]⟩ : RefSt).context =
        (⟨⟨[], ⟨[("k", CVal.natV 1)], []⟩⟩, 0⟩ : Waiter).state.context := by
  refine ⟨rfl, ?_⟩
  exact (withContext_installs_saved_state.2
    (fun _ _ _ _ => RefRes.val "ref") REntity.noEmit
    [⟨⟨[], ⟨[("k", CVal.natV 1)], []⟩⟩, 0⟩]
    ⟨⟨[], []⟩, [], [], [none]⟩
    ⟨⟨[("k", CVal.natV 1)], []⟩, [], [], [none]⟩
    ⟨⟨[], ⟨[("k", CVal.natV 1)], []⟩⟩, 0⟩ rfl rfl).1

/-! ## Claim C3 — frame restoration in `withTypeContext`

The source restores the frame by two plain assignments placed after
`cb()`, with no try/finally: when the user operation throws, those
assignments never run and the error propagates with the entered frame
still installed. -/

/-- Let-free reading of `withTypeContext`. -/
theorem withTypeContext_eq (E : UserEm) (t : Ty)
    (cb : EmSt → Option String × EmSt) (st : EmSt) :
    withTypeContext E t cb st =
      match cb (setContextForType E t st) with
      | (none, st2) =>
        (none, { st2 with context := st.context, lexicalTypeStack := st.lexicalTypeStack })
      | (some e, st2) => (some e, st2) := rfl

/-- Counterexample for claim C3: a user operation that throws
propagates its error while the context entered for the dispatched type
is still installed — the frame is not restored to its pre-invocation
value. -/
theorem withTypeContext_throw_counterexample :
    (withTypeContext cUser (.booleanLit true) throwingCb cSt).1 = some "boom"
    ∧ (withTypeContext cUser (.booleanLit true) throwingCb cSt).2.context ≠
        cSt.context := by
  decide

/-- Amended claim C3: the frame saved before the invocation is
restored when the user operation returns normally; when the operation
throws, the error propagates with the context and lexical type stack
exactly as the operation left them — no restoration happens. -/
theorem withTypeContext_frame :
    (∀ E t cb st st2, cb (setContextForType E t st) = (none, st2) →
      withTypeContext E t cb st =
        (none, { st2 with context := st.context, lexicalTypeStack := st.lexicalTypeStack }))
    ∧ (∀ E t cb st e st2, cb (setContextForType E t st) = (some e, st2) →
      withTypeContext E t cb st = (some e, st2)) := by
  constructor
  · intro E t cb st st2 h
    rw [withTypeContext_eq, h]
  · intro E t cb st e st2 h
    rw [withTypeContext_eq, h]

/-- Witness for amended claim C3: a returning operation gets its frame
restored, a throwing one does not. -/
theorem withTypeContext_frame_witness :
    withTypeContext cUserTrivial (.booleanLit true) (fun s => (none, s)) initEmSt =
      (none, { setContextForType cUserTrivial (.booleanLit true) initEmSt with
               context := initEmSt.context,
               lexicalTypeStack := initEmSt.lexicalTypeStack })
    ∧ withTypeContext cUser (.booleanLit true) throwingCb cSt =
        (some "boom", setContextForType cUser (.booleanLit true) cSt) :=
  ⟨withTypeContext_frame.1 cUserTrivial (.booleanLit true) (fun s => (none, s))
      initEmSt (setContextForType cUserTrivial (.booleanLit true) initEmSt) rfl,
   withTypeContext_frame.2 cUser (.booleanLit true) throwingCb cSt "boom"
      (setContextForType cUser (.booleanLit true) cSt) rfl⟩

/-! ## Claims C2 and C7 — circular references -/

/-- The state effect of a waiter callback is exactly the rendered
reference of the resolved entity under the current context of the state:
errors agree, a non-declaration entity leaves the state untouched, and
a rendered value is assigned to the pending placeholder. -/
theorem invokeReference_state (refFn : RefFn) (i : Nat) (entity : REntity)
    (st : RefSt) :
    (invokeReference refFn (some i) entity st).map Prod.snd =
      (renderedReference refFn st.context entity).map (fun v =>
        match v with
        | none => st
        | some s => { st with phs := setPh st.phs i s }) := by
  cases entity with
  | rawCodeE v => rfl
  | noEmit => rfl
  | circularE k => rfl
  | decl nm tsc v =>
    simp only [invokeReference, renderedReference]
    rcases currentScope st.context with _ | sc
    · rfl
    · dsimp only
      rcases href : refFn (REntity.decl nm tsc v)
          ((scopeChain sc).drop (commonLen (scopeChain tsc) (scopeChain sc)))
          ((scopeChain tsc).drop (commonLen (scopeChain tsc) (scopeChain sc)))
          (if commonLen (scopeChain tsc) (scopeChain sc) = 0 then none
           else (scopeChain tsc).get? (commonLen (scopeChain tsc) (scopeChain sc) - 1))
        with s | p | e
      · rfl
      · rfl
      · cases e with
        | decl nm2 sc2 v2 => cases v2 <;> rfl
        | rawCodeE v2 => cases v2 <;> rfl
        | noEmit => rfl
        | circularE k2 => rfl

/-- Claim C7: when a circular-reference waiter fires with a pending
placeholder and the reference computation for the resolved declaration
produces `NoEmit`, the placeholder is filled with the empty string;
and a reference operation returning a bare placeholder, or an entity
whose value is a placeholder, makes the resolution throw instead of
deferring again. -/
theorem invokeReference_edge_cases :
    (∀ (refFn : RefFn) i nm tsc v st sc,
      currentScope st.context = some sc →
      refFn (REntity.decl nm tsc v)
          ((scopeChain sc).drop (commonLen (scopeChain tsc) (scopeChain sc)))
          ((scopeChain tsc).drop (commonLen (scopeChain tsc) (scopeChain sc)))
          (if commonLen (scopeChain tsc) (scopeChain sc) = 0 then none
           else (scopeChain tsc).get? (commonLen (scopeChain tsc) (scopeChain sc) - 1)) =
        .ent .noEmit →
      invokeReference refFn (some i) (.decl nm tsc v) st =
        .ok (.noEmit, { st with phs := setPh st.phs i "" }))
    ∧ (∀ (refFn : RefFn) phId nm tsc v st sc p,
      currentScope st.context = some sc →
      refFn (REntity.decl nm tsc v)
          ((scopeChain sc).drop (commonLen (scopeChain tsc) (scopeChain sc)))
          ((scopeChain tsc).drop (commonLen (scopeChain tsc) (scopeChain sc)))
          (if commonLen (scopeChain tsc) (scopeChain sc) = 0 then none
           else (scopeChain tsc).get? (commonLen (scopeChain tsc) (scopeChain sc) - 1)) =
        .ph p →
      invokeReference refFn phId (.decl nm tsc v) st = .error "Still circular")
    ∧ (∀ (refFn : RefFn) i nm tsc v st sc q,
      currentScope st.context = some sc →
      refFn (REntity.decl nm tsc v)
          ((scopeChain sc).drop (commonLen (scopeChain tsc) (scopeChain sc)))
          ((scopeChain tsc).drop (commonLen (scopeChain tsc) (scopeChain sc)))
          (if commonLen (scopeChain tsc) (scopeChain sc) = 0 then none
           else (scopeChain tsc).get? (commonLen (scopeChain tsc) (scopeChain sc) - 1)) =
        .ent (.rawCodeE (.phv q)) →
      invokeReference refFn (some i) (.decl nm tsc v) st =
        .error "Reference cannot return a placeholder") := by
  refine ⟨?_, ?_, ?_⟩
  · intro refFn i nm tsc v st sc hsc href
    simp only [invokeReference, hsc, href]
    rfl
  · intro refFn phId nm tsc v st sc p hsc href
    simp only [invokeReference, hsc, href]
  · intro refFn i nm tsc v st sc q hsc href
    simp only [invokeReference, hsc, href]
    rfl

/-- Witness for claim C7: a one-scope world where the reference
operation returns `NoEmit`, a bare placeholder, and a
placeholder-valued raw code respectively. -/
theorem invokeReference_edge_cases_witness :
    invokeReference (fun _ _ _ _ => RefRes.ent .noEmit) (some 0)
        (.decl "D" ⟨[1]⟩ (.strv "d"))
        ⟨⟨[("scope", CVal.scopeV ⟨[1]⟩)], []⟩, [], [], [none]⟩ =
      .ok (.noEmit,
        ⟨⟨[("scope", CVal.scopeV ⟨[1]⟩)], []⟩, [], [], [some ""]⟩)
    ∧ invokeReference (fun _ _ _ _ => RefRes.ph 4) none
        (.decl "D" ⟨[1]⟩ (.strv "d"))
        ⟨⟨[("scope", CVal.scopeV ⟨[1]⟩)], []⟩, [], [], []⟩ =
      .error "Still circular"
    ∧ invokeReference (fun _ _ _ _ => RefRes.ent (.rawCodeE (.phv 4))) (some 0)
        (.decl "D" ⟨[1]⟩ (.strv "d"))
        ⟨⟨[("scope", CVal.scopeV ⟨[1]⟩)], []⟩, [], [], [none]⟩ =
      .error "Reference cannot return a placeholder" :=
  ⟨invokeReference_edge_cases.1 (fun _ _ _ _ => RefRes.ent .noEmit) 0 "D" ⟨[1]⟩
      (.strv "d") ⟨⟨[("scope", CVal.scopeV ⟨[1]⟩)], []⟩, [], [], [none]⟩ ⟨[1]⟩
      rfl rfl,
   invokeReference_edge_cases.2.1 (fun _ _ _ _ => RefRes.ph 4) none "D" ⟨[1]⟩
      (.strv "d") ⟨⟨[("scope", CVal.scopeV ⟨[1]⟩)], []⟩, [], [], []⟩ ⟨[1]⟩ 4
      rfl rfl,
   invokeReference_edge_cases.2.2 (fun _ _ _ _ => RefRes.ent (.rawCodeE (.phv 4)))
      0 "D" ⟨[1]⟩ (.strv "d")
      ⟨⟨[("scope", CVal.scopeV ⟨[1]⟩)], []⟩, [], [], [none]⟩ ⟨[1]⟩ 4 rfl rfl⟩

/-- Updating then reading the same key. -/
theorem alookup_aset_self {α β : Type} [DecidableEq α] (l : List (α × β))
    (k : α) (v : β) : alookup (aset l k v) k = some v := by
  induction l with
  | nil => simp [aset, alookup]
  | cons kv rest ih =>
    rcases kv with ⟨k1, v1⟩
    by_cases h : k1 = k
    · simp [aset, alookup, h]
    · simp [aset, alookup, h, ih]

/-- Updating one key leaves other keys unchanged. -/
theorem alookup_aset_ne {α β : Type} [DecidableEq α] (l : List (α × β))
    (k k' : α) (v : β) (h : k ≠ k') :
    alookup (aset l k v) k' = alookup l k' := by
  induction l with
  | nil => simp [aset, alookup, h]
  | cons kv rest ih =>
    rcases kv with ⟨k1, v1⟩
    by_cases h1 : k1 = k
    · subst h1
      simp [aset, alookup, h]
    · simp [aset, alookup, h1, ih]

/-- Claim C2: after the dispatch of a referenced type returns a
`CircularEmit`, `emitTypeReference` (i) registers under the circular
key a waiter recording the current lexical type stack and context and
the freshly created placeholder, and synchronously returns a `RawCode`
wrapping that placeholder, which is fresh and unresolved; (ii) when
the entity later completes, the drained waiter fills that placeholder
with the reference value rendered under the context captured at
registration time; and (iii) the draining is independent of the frame
current at resolution time. -/
theorem emitTypeReference_circular :
    (∀ (refFn : RefFn) key st,
      ∃ st1,
        emitTypeReferenceAfterDispatch refFn (.circularE key) st =
          .ok (.rawCodeE (.phv st.phs.length), st1)
        ∧ st.phs.get? st.phs.length = none
        ∧ st1.phs.get? st.phs.length = some none
        ∧ alookup st1.waitingCircularRefs key =
            some ((alookup st.waitingCircularRefs key).getD [] ++
              [⟨⟨st.lexicalTypeStack, st.context⟩, st.phs.length⟩]))
    ∧ (∀ (refFn : RefFn) (entity : REntity) (w : Waiter) (st st1 : RefSt)
        (s : String),
        drainLoop refFn entity [w] st = .ok st1 →
        renderedReference refFn w.state.context entity = .ok (some s) →
        st1.phs = setPh st.phs w.phId s)
    ∧ (∀ (refFn : RefFn) (entity : REntity) (w : Waiter) (st : RefSt)
        (c1 c2 : CtxStateE) (l1 l2 : List Ty),
        drainLoop refFn entity [w] { st with context := c1, lexicalTypeStack := l1 } =
        drainLoop refFn entity [w] { st with context := c2, lexicalTypeStack := l2 }) := by
  refine ⟨?_, ?_, ?_⟩
  · intro refFn key st
    refine ⟨_, rfl, ?_, ?_, ?_⟩
    · exact List.get?_eq_none.mpr le_rfl
    · exact List.get?_concat_length st.phs none
    · exact alookup_aset_self st.waitingCircularRefs key _
  · intro refFn entity w st st1 s hdrain hrend
    obtain ⟨stx, hw, hrest⟩ := drainLoop_cons_ok refFn entity w [] st st1 hdrain
    unfold drainLoop at hrest
    cases hrest
    rw [withContext_eq] at hw
    have hcb := invokeReference_state refFn w.phId entity
      ⟨w.state.context, w.state.lexicalTypeStack, st.waitingCircularRefs, st.phs⟩
    rw [hrend] at hcb
    simp only [Except.map] at hcb
    simp only [Except.map] at hw
    rw [hcb] at hw
    dsimp only at hw
    injection hw with h1
    rw [← h1]
  · intro refFn entity w st c1 c2 l1 l2
    rfl

/-- Witness for claim C2: one waiter registered while a marker context
was current is drained later under an unrelated frame and fills its
placeholder with the reference value rendered under the captured
context. -/
theorem emitTypeReference_circular_witness :
    (⟨⟨[("scope", CVal.scopeV ⟨[2]⟩)], []⟩, [], [],
        [some "Dref"]⟩ : RefSt).phs = setPh [none] 0 "Dref" :=
  emitTypeReference_circular.2.1 (fun _ _ _ _ => RefRes.val "Dref")
    (.decl "D" ⟨[1]⟩ (.strv "d"))
    ⟨⟨[], ⟨[("scope", CVal.scopeV ⟨[2]⟩)], []⟩⟩, 0⟩
    ⟨⟨[("other", CVal.natV 3)], []⟩, [Ty.tuple 2], [], [none]⟩
    ⟨⟨[("scope", CVal.scopeV ⟨[2]⟩)], []⟩, [], [], [some "Dref"]⟩
    "Dref" rfl rfl

/-! ## Claim C6 — the enclosure stack -/

/-- The unshift loop collects exactly the chain of enclosing
namespaces up to the first unnamed one, outermost first, in front of
the accumulator. -/
theorem nsUnshiftLoop_spec_aux (l : List String) :
    ∀ (nm : String) (acc : List Ty),
      nsUnshiftLoop (some ⟨nm, l⟩) acc =
        (((enclosureChain (some ⟨nm, l⟩)).takeWhile
            (fun n => n.name ≠ "")).reverse).map Ty.namespaceTy ++ acc := by
  induction l with
  | nil =>
    intro nm acc
    by_cases h : nm = ""
    · subst h
      simp [nsUnshiftLoop, enclosureChain, NsRef.parent]
    · simp [nsUnshiftLoop, enclosureChain, NsRef.parent, h]
  | cons a rest ih =>
    intro nm acc
    by_cases h : nm = ""
    · subst h
      simp [nsUnshiftLoop, enclosureChain, NsRef.parent]
    · rw [show nsUnshiftLoop (some ⟨nm, a :: rest⟩) acc =
          nsUnshiftLoop (some ⟨a, rest⟩)
            (Ty.namespaceTy ⟨nm, a :: rest⟩ :: acc) by
        simp [nsUnshiftLoop, NsRef.parent, h]]
      rw [ih a (Ty.namespaceTy ⟨nm, a :: rest⟩ :: acc)]
      rw [show enclosureChain (some ⟨nm, a :: rest⟩) =
          (⟨nm, a :: rest⟩ : NsRef) :: enclosureChain (some ⟨a, rest⟩) by
        simp [enclosureChain, NsRef.parent]]
      rw [List.takeWhile_cons_of_pos (by simp [h])]
      simp [List.append_assoc]

/-- The unshift loop for any starting namespace pointer. -/
theorem nsUnshiftLoop_spec (o : Option NsRef) (acc : List Ty) :
    nsUnshiftLoop o acc =
      (((enclosureChain o).takeWhile
          (fun n => n.name ≠ "")).reverse).map Ty.namespaceTy ++ acc := by
  cases o with
  | none => simp [nsUnshiftLoop, enclosureChain]
  | some n => exact nsUnshiftLoop_spec_aux n.ancestors n.name acc

/-- Claim C6: before dispatching a type (`setContextForType`), the
enclosure stack of a declaration type is reset to the chain of its
non-empty enclosing namespaces — outermost to innermost, stopping at
the first unnamed (global) namespace — followed by the type itself;
for any other type the previous stack is kept and the type appended;
and the declaration types are exactly Namespace, Interface, Enum,
Operation, a Model whose name is neither empty nor "Array", and a
Union with a nonempty name. -/
theorem setContextForType_enclosure_stack :
    (∀ (E : UserEm) (t : Ty) (st : EmSt), isDeclaration t = true →
      (setContextForType E t st).lexicalTypeStack =
        nonEmptyEnclosingNamespaces t ++ [t])
    ∧ (∀ (E : UserEm) (t : Ty) (st : EmSt), isDeclaration t = false →
      (setContextForType E t st).lexicalTypeStack =
        st.lexicalTypeStack ++ [t])
    ∧ (∀ t : Ty, isDeclaration t = true ↔ isDeclarationSpec t) := by
  refine ⟨?_, ?_, ?_⟩
  · intro E t st h
    have hstack : (setContextForType E t st).lexicalTypeStack =
        newTypeStackFor t st.lexicalTypeStack := rfl
    rw [hstack]
    unfold newTypeStackFor
    rw [if_pos (by simp [h])]
    exact nsUnshiftLoop_spec (tyNamespaceOf t) [t]
  · intro E t st h
    have hstack : (setContextForType E t st).lexicalTypeStack =
        newTypeStackFor t st.lexicalTypeStack := rfl
    rw [hstack]
    unfold newTypeStackFor
    rw [if_neg (by simp [h])]
  · intro t
    cases t with
    | model i name targs ns =>
      by_cases hn : name = "" <;>
        simp [isDeclaration, isDeclarationSpec, hn]
    | union name targs ns =>
      cases name with
      | none => simp [isDeclaration, isDeclarationSpec]
      | some nm =>
        by_cases hnm : nm = "" <;>
          simp [isDeclaration, isDeclarationSpec, hnm]
    | namespaceTy n => simp [isDeclaration, isDeclarationSpec]
    | modelProperty nm => simp [isDeclaration, isDeclarationSpec]
    | booleanLit b => simp [isDeclaration, isDeclarationSpec]
    | stringLit s => simp [isDeclaration, isDeclarationSpec]
    | numericLit n => simp [isDeclaration, isDeclarationSpec]
    | operation nm i ns => simp [isDeclaration, isDeclarationSpec]
    | interfaceTy nm ns => simp [isDeclaration, isDeclarationSpec]
    | enumTy nm ns => simp [isDeclaration, isDeclarationSpec]
    | enumMember nm => simp [isDeclaration, isDeclarationSpec]
    | unionVariant nm => simp [isDeclaration, isDeclarationSpec]
    | tuple n => simp [isDeclaration, isDeclarationSpec]

/-- Witness for claim C6: an enum inside namespace A resets the stack
to the namespace chain plus itself; a string literal extends the
previous stack. -/
theorem setContextForType_enclosure_stack_witness :
    (setContextForType cUserTrivial (.enumTy "E" (some ⟨"A", []⟩)) initEmSt).lexicalTypeStack =
      nonEmptyEnclosingNamespaces (.enumTy "E" (some ⟨"A", []⟩)) ++
        [.enumTy "E" (some ⟨"A", []⟩)]
    ∧ (setContextForType cUserTrivial (.stringLit "s") initEmSt).lexicalTypeStack =
        initEmSt.lexicalTypeStack ++ [.stringLit "s"] :=
  ⟨setContextForType_enclosure_stack.1 cUserTrivial (.enumTy "E" (some ⟨"A", []⟩))
      initEmSt rfl,
   setContextForType_enclosure_stack.2.1 cUserTrivial (.stringLit "s")
      initEmSt rfl⟩

/-! ## Claim C8 — the program walk -/

/-- The invocation trace is append-only across a body run. -/
theorem runBodyWith_trace_mono
    (inv : String → Ty → EmSt → DEntity × EmSt)
    (hmono : ∀ m t st x, x ∈ st.trace → x ∈ (inv m t st).2.trace) :
    ∀ (b : UserBody) (st : EmSt) (x : MemoKey),
      x ∈ st.trace → x ∈ (runBodyWith inv b st).2.trace := by
  intro b
  induction b with
  | ret v => intro st x hx; exact hx
  | seqEmitType t rest ih =>
    intro st x hx
    exact ih _ _ (hmono _ _ _ _ hx)

/-- The invocation trace is append-only across a dispatch. -/
theorem invokeTypeEmitter_trace_mono :
    ∀ (fuel : Nat) (E : UserEm) (m : String) (t : Ty) (st : EmSt) (x : MemoKey),
      x ∈ st.trace → x ∈ (invokeTypeEmitter fuel E m t st).2.trace := by
  intro fuel E
  induction fuel with
  | zero => intro m t st x hx; exact hx
  | succ n ih =>
    intro m t st x hx
    simp only [invokeTypeEmitter]
    split
    · exact hx
    · refine runBodyWith_trace_mono _ (fun m1 t1 st9 x1 hx1 => ih m1 t1 st9 x1 hx1)
        (E.body m t) _ x ?_
      exact List.mem_append_left _ hx

/-- A guarded emit loop is the filter of its items, appended in
order. -/
theorem walkLoop_eq (guard : Ty → Bool) :
    ∀ (items acc : List Ty),
      walkLoop guard items acc = acc ++ items.filter guard := by
  intro items
  induction items with
  | nil => intro acc; simp [walkLoop]
  | cons x rest ih =>
    intro acc
    by_cases h : guard x
    · rw [show walkLoop guard (x :: rest) acc =
          walkLoop guard rest (acc ++ [x]) by simp [walkLoop, h]]
      rw [ih, List.filter_cons_of_pos h]
      simp [List.append_assoc]
    · rw [show walkLoop guard (x :: rest) acc =
          walkLoop guard rest acc by simp [walkLoop, h]]
      rw [ih, List.filter_cons_of_neg (by simp [h])]

/-- Filtering a mapped namespace list. -/
theorem filter_map_nsTy (p : Ty → Bool) (l : List NsRef) :
    (l.map Ty.namespaceTy).filter p =
      (l.filter (fun n => p (Ty.namespaceTy n))).map Ty.namespaceTy := by
  induction l with
  | nil => simp
  | cons a rest ih =>
    simp only [List.map_cons, List.filter_cons]
    by_cases h : p (Ty.namespaceTy a) <;> simp [h, ih]

/-- Claim C8: `emitProgram` without `emitGlobalNamespace` visits, in
this order: the child namespaces except the one named "Cadl" (unless
`emitCadlNamespace`), then the models, operations, enums, unions and
interfaces, where models, operations, unions and interfaces that the
compiler marks as uninstantiated template declarations are skipped
(`itd` is the compiler predicate `isTemplateDeclaration`); and the
dispatcher itself performs no template check — `emitType` on any type
(in particular a template instantiation reached through a reference)
under an unmemoized key always invokes the user operation, whatever
`itd` says. -/
theorem emitProgram_walk_order :
    (∀ (cadl : Bool) (itd : Ty → Bool) (g : GlobalNs),
      emitProgram ⟨false, cadl⟩ itd g =
        (g.namespaces.filter
            (fun n => decide (n.name ≠ "Cadl") || cadl)).map Ty.namespaceTy
        ++ g.models.filter (fun t => ! itd t)
        ++ g.operations.filter (fun t => ! itd t)
        ++ g.enums
        ++ g.unions.filter (fun t => ! itd t)
        ++ g.interfaces.filter (fun t => ! itd t))
    ∧ (∀ (fuel : Nat) (E : UserEm) (t : Ty) (st : EmSt),
        alookup st.typeToEmitEntity
          (typeEmitterKey t, t, (setContextForType E t st).context) = none →
        (typeEmitterKey t, t, (setContextForType E t st).context) ∈
          (emitType (fuel + 1) E t st).2.trace) := by
  constructor
  · intro cadl itd g
    show walkLoop _ g.interfaces (walkLoop _ g.unions (walkLoop _ g.enums
      (walkLoop _ g.operations (walkLoop _ g.models
        (walkLoop _ (g.namespaces.map Ty.namespaceTy) []))))) = _
    rw [walkLoop_eq, walkLoop_eq, walkLoop_eq, walkLoop_eq, walkLoop_eq,
      walkLoop_eq, List.nil_append, filter_map_nsTy]
    congr 1
    rotate_left
    · exact List.filter_congr (fun t _ => by simp)
    congr 1
    rotate_left
    · exact List.filter_congr (fun t _ => by simp)
    congr 1
    rotate_left
    · simp
    congr 1
    rotate_left
    · exact List.filter_congr (fun t _ => by simp)
    congr 1
    · exact congrArg (List.map Ty.namespaceTy) (List.filter_congr (fun n _ => by
        by_cases h : n.name = "Cadl" <;> cases cadl <;> simp [h]))
    · exact List.filter_congr (fun t _ => by simp)
  · intro fuel E t st hmiss
    unfold emitType
    simp only [invokeTypeEmitter]
    split
    · rename_i e heq
      rw [show (setContextForType E t st).typeToEmitEntity =
          st.typeToEmitEntity from rfl] at heq
      rw [hmiss] at heq
      cases heq
    · rename_i heq
      refine runBodyWith_trace_mono _
        (fun m1 t1 st9 x1 hx1 => invokeTypeEmitter_trace_mono fuel E m1 t1 st9 x1 hx1)
        (E.body (typeEmitterKey t) t) _ _ ?_
      exact List.mem_append_right _ (List.mem_singleton.mpr rfl)

/-- Witness for claim C8: the dispatcher emits a template
instantiation like any other type when its key is not memoized. -/
theorem emitProgram_walk_order_witness :
    (typeEmitterKey (.model none "T" (some 1) none), Ty.model none "T" (some 1) none,
      (setContextForType cUserTrivial (.model none "T" (some 1) none) initEmSt).context) ∈
      (emitType 1 cUserTrivial (.model none "T" (some 1) none) initEmSt).2.trace :=
  emitProgram_walk_order.2 0 cUserTrivial (.model none "T" (some 1) none)
    initEmSt rfl

/-! ## Claim C1 — memoization of the dispatcher -/

/-- An update cannot remove a key of the memo. -/
theorem alookup_aset_isSome {α β : Type} [DecidableEq α] (l : List (α × β))
    (k k' : α) (v : β) (h : (alookup l k').isSome) :
    (alookup (aset l k v) k').isSome := by
  by_cases hk : k = k'
  · subst hk
    rw [alookup_aset_self]
    rfl
  · rw [alookup_aset_ne l k k' v hk]
    exact h

/-- A memo hit returns the stored entity and only restores the
frame. -/
theorem invoke_succ_hit (fuel : Nat) (E : UserEm) (m : String) (t : Ty)
    (st : EmSt) (e : DEntity)
    (heq : alookup st.typeToEmitEntity
      (m, t, (setContextForType E t st).context) = some e) :
    invokeTypeEmitter (fuel + 1) E m t st =
      (e, { setContextForType E t st with
            context := st.context
            lexicalTypeStack := st.lexicalTypeStack }) := by
  simp only [invokeTypeEmitter]
  rw [show alookup (setContextForType E t st).typeToEmitEntity
    (m, t, (setContextForType E t st).context) = some e from heq]

/-- A memo miss runs the miss path. -/
theorem invoke_succ_miss (fuel : Nat) (E : UserEm) (m : String) (t : Ty)
    (st : EmSt)
    (heq : alookup st.typeToEmitEntity
      (m, t, (setContextForType E t st).context) = none) :
    invokeTypeEmitter (fuel + 1) E m t st = dispatchMiss fuel E m t st := by
  simp only [invokeTypeEmitter, dispatchMiss]
  rw [show alookup (setContextForType E t st).typeToEmitEntity
    (m, t, (setContextForType E t st).context) = none from heq]

/-- Recording an invocation for an unmemoized key together with its
circular marker preserves the dispatcher invariant. -/
theorem InvEm_extend (st : EmSt) (k : MemoKey) (e : DEntity) (h : InvEm st)
    (hmiss : alookup st.typeToEmitEntity k = none) :
    InvEm { st with
            typeToEmitEntity := aset st.typeToEmitEntity k e
            trace := st.trace ++ [k] } := by
  refine ⟨?_, ?_⟩
  · rw [List.nodup_append]
    refine ⟨h.1, List.nodup_singleton k, ?_⟩
    intro x hx hk
    rw [List.mem_singleton] at hk
    subst hk
    have hs := h.2 x hx
    rw [hmiss] at hs
    simp at hs
  · intro x hx
    rcases List.mem_append.mp hx with h1 | h1
    · exact alookup_aset_isSome _ _ _ _ (h.2 x h1)
    · rw [List.mem_singleton] at h1
      subst h1
      rw [alookup_aset_self]
      rfl

/-- Overwriting a memo entry preserves the dispatcher invariant. -/
theorem InvEm_overwrite (st : EmSt) (k : MemoKey) (e : DEntity) (h : InvEm st) :
    InvEm { st with typeToEmitEntity := aset st.typeToEmitEntity k e } :=
  ⟨h.1, fun x hx => alookup_aset_isSome _ _ _ _ (h.2 x hx)⟩

/-- Running a user operation body preserves the dispatcher invariant
whenever each dispatch does. -/
theorem runBodyWith_inv (inv : String → Ty → EmSt → DEntity × EmSt)
    (hinv : ∀ m t st, InvEm st → InvEm (inv m t st).2) :
    ∀ (b : UserBody) (st : EmSt), InvEm st → InvEm (runBodyWith inv b st).2 := by
  intro b
  induction b with
  | ret v => intro st h; exact h
  | seqEmitType t rest ih => intro st h; exact ih _ (hinv _ _ _ h)

/-- Every dispatch preserves the dispatcher invariant: an invocation
is recorded only for a key absent from the memo, and the memoized keys
only grow. -/
theorem invokeTypeEmitter_inv :
    ∀ (fuel : Nat) (E : UserEm) (m : String) (t : Ty) (st : EmSt),
      InvEm st → InvEm (invokeTypeEmitter fuel E m t st).2 := by
  intro fuel E
  induction fuel with
  | zero => intro m t st h; exact h
  | succ n ih =>
    intro m t st h
    cases hlk : alookup st.typeToEmitEntity
        (m, t, (setContextForType E t st).context) with
    | some e =>
      rw [invoke_succ_hit n E m t st e hlk]
      exact h
    | none =>
      rw [invoke_succ_miss n E m t st hlk]
      have h2 :=
        InvEm_extend (setContextForType E t st)
          (m, t, (setContextForType E t st).context)
          (DEntity.circularEmit (m, t, (setContextForType E t st).context))
          (show InvEm (setContextForType E t st) from h) hlk
      have h3 := runBodyWith_inv _ (fun m1 t1 s1 => ih m1 t1 s1)
        (E.body m t) _ h2
      exact ⟨h3.1, fun x hx => alookup_aset_isSome _ _ _ _ (h3.2 x hx)⟩

/-- Claim C1: over any dispatch sequence from the initial emitter
state the invocation trace has no duplicates, so every memo key
`(opKey, T, C)` is invoked at most once — and exactly once when the
key is reached, by the last conjunct; distinct interned contexts give
distinct keys, each invoked separately.  A dispatch whose key is
already memoized returns the stored entity and leaves the memo and the
invocation trace untouched; a dispatch whose key is unmemoized records
the invocation of the user operation for that key. -/
theorem dispatcher_invokes_once :
    (∀ (fuel : Nat) (E : UserEm) (b : UserBody),
      ((runBody fuel E b initEmSt).2.trace).Nodup)
    ∧ (∀ (fuel : Nat) (E : UserEm) (m : String) (t : Ty) (st : EmSt) (e : DEntity),
        alookup st.typeToEmitEntity (m, t, (setContextForType E t st).context) =
          some e →
        (invokeTypeEmitter (fuel + 1) E m t st).1 = e
        ∧ (invokeTypeEmitter (fuel + 1) E m t st).2.trace = st.trace
        ∧ (invokeTypeEmitter (fuel + 1) E m t st).2.typeToEmitEntity =
            st.typeToEmitEntity)
    ∧ (∀ (fuel : Nat) (E : UserEm) (m : String) (t : Ty) (st : EmSt),
        alookup st.typeToEmitEntity (m, t, (setContextForType E t st).context) =
          none →
        (m, t, (setContextForType E t st).context) ∈
          (invokeTypeEmitter (fuel + 1) E m t st).2.trace) := by
  have hinit : InvEm initEmSt := ⟨List.nodup_nil, fun k hk => absurd hk (by simp [initEmSt])⟩
  have hnodup : ∀ (fuel : Nat) (E : UserEm) (b : UserBody),
      ((runBody fuel E b initEmSt).2.trace).Nodup := by
    intro fuel E b
    exact (runBodyWith_inv _ (fun m t s => invokeTypeEmitter_inv fuel E m t s)
      b initEmSt hinit).1
  refine ⟨hnodup, ?_, ?_⟩
  · intro fuel E m t st e hsome
    rw [invoke_succ_hit fuel E m t st e hsome]
    exact ⟨rfl, rfl, rfl⟩
  · intro fuel E m t st hmiss
    rw [invoke_succ_miss fuel E m t st hmiss]
    refine runBodyWith_trace_mono _
      (fun m1 t1 st9 x1 hx1 =>
        invokeTypeEmitter_trace_mono fuel E m1 t1 st9 x1 hx1)
      (E.body m t) _ _ ?_
    exact List.mem_append_right _ (List.mem_singleton.mpr rfl)

/-- Witness for claim C1: a second emission of the same string literal
under the same context returns the stored entity without touching the
memo or the trace; the first emission records the invocation. -/
theorem dispatcher_invokes_once_witness :
    ((invokeTypeEmitter 2 cUserTrivial "stringLiteral" (.stringLit "x")
        cStAfterFirst).1 = DEntity.rawCode 5
      ∧ (invokeTypeEmitter 2 cUserTrivial "stringLiteral" (.stringLit "x")
          cStAfterFirst).2.trace = cStAfterFirst.trace
      ∧ (invokeTypeEmitter 2 cUserTrivial "stringLiteral" (.stringLit "x")
          cStAfterFirst).2.typeToEmitEntity = cStAfterFirst.typeToEmitEntity)
    ∧ ("stringLiteral", Ty.stringLit "x",
        (setContextForType cUserTrivial (.stringLit "x") initEmSt).context) ∈
        (invokeTypeEmitter 1 cUserTrivial "stringLiteral" (.stringLit "x")
          initEmSt).2.trace :=
  ⟨dispatcher_invokes_once.2.1 1 cUserTrivial "stringLiteral" (.stringLit "x")
      cStAfterFirst (DEntity.rawCode 5) (by decide),
   dispatcher_invokes_once.2.2 0 cUserTrivial "stringLiteral" (.stringLit "x")
      initEmSt rfl⟩

/-! ## Claim C9 — the interner -/

/-- Lookup of a field present in a duplicate-free record. -/
theorem rlookup_of_mem (l : List (String × Nat))
    (hnd : (l.map Prod.fst).Nodup) (k : String) (v : Nat)
    (h : (k, v) ∈ l) : rlookup l k = some v := by
  induction l with
  | nil => cases h
  | cons kv rest ih =>
    rcases kv with ⟨k1, v1⟩
    simp only [List.map_cons, List.nodup_cons] at hnd
    rcases List.mem_cons.mp h with he | hrest
    · have hk : k = k1 := congrArg Prod.fst he
      have hv : v = v1 := congrArg Prod.snd he
      subst hk
      subst hv
      simp [rlookup]
    · have hk1 : k1 ≠ k := by
        intro hkk
        subst hkk
        exact hnd.1 (List.mem_map_of_mem Prod.fst hrest)
      simp only [rlookup, if_neg hk1]
      exact ih hnd.2 hrest

/-- Value-equivalent well-formed objects have the same number of
fields. -/
theorem fields_length_of_equiv (a b : Obj) (ha : ObjWF a) (hb : ObjWF b)
    (he : objEquiv a b) : a.fields.length = b.fields.length := by
  have hcard := congrArg Finset.card he.1
  rw [List.toFinset_card_of_nodup ha, List.toFinset_card_of_nodup hb] at hcard
  simpa [List.length_map] using hcard

/-- Every well-formed object matches itself. -/
theorem objMatches_refl (o : Obj) (h : ObjWF o) : objMatches o o = true := by
  simp only [objMatches, Bool.and_eq_true, decide_eq_true_eq, List.all_eq_true]
  exact ⟨trivial, fun kv hkv => rlookup_of_mem o.fields h kv.1 kv.2 hkv⟩

/-- Matching is invariant under value equivalence of the candidate. -/
theorem objMatches_of_equiv (ko a b : Obj) (ha : ObjWF a) (hb : ObjWF b)
    (he : objEquiv a b) : objMatches ko a = objMatches ko b := by
  unfold objMatches
  rw [fields_length_of_equiv a b ha hb he]
  congr 1
  exact congrArg _ (funext fun kv => by rw [show a.get kv.1 = b.get kv.1 from he.2 kv.1])

/-- A well-formed object is value-equivalent to any equivalent one in
the matching sense. -/
theorem objMatches_of_equiv_self (a b : Obj) (ha : ObjWF a) (hb : ObjWF b)
    (he : objEquiv a b) : objMatches a b = true := by
  rw [← objMatches_of_equiv a a b ha hb he]
  exact objMatches_refl a ha

/-- In a pairwise non-matching list, the first match of a member is
that member itself. -/
theorem find?_first_self (l : List Obj) (x : Obj)
    (hpw : l.Pairwise (fun a b => objMatches a b = false))
    (hx : x ∈ l) (hrefl : objMatches x x = true) :
    l.find? (fun ko => objMatches ko x) = some x := by
  induction l with
  | nil => cases hx
  | cons hd tl ih =>
    rcases List.mem_cons.mp hx with he | ht
    · subst he
      exact List.find?_cons_of_pos _ hrefl
    · have hfalse : objMatches hd x = false := (List.pairwise_cons.mp hpw).1 x ht
      rw [List.find?_cons_of_neg _ (by simp [hfalse])]
      exact ih (List.pairwise_cons.mp hpw).2 ht

/-- Claim C9: the interner is canonical with respect to value
equality — interning two records with the same key set and identical
values per key returns the identical object; interning is idempotent;
and every record with zero keys interns to the one shared sentinel. -/
theorem interner_canonical :
    (∀ (s : InternerState) (r1 r2 : Obj), ObjWF r1 → ObjWF r2 →
      objEquiv r1 r2 →
      (intern (intern s r1).2 r2).1 = (intern s r1).1)
    ∧ (∀ (s : InternerState) (r : Obj), InternInv s → ObjWF r →
      (intern (intern s r).2 (intern s r).1).1 = (intern s r).1)
    ∧ (∀ (s : InternerState) (r : Obj), r.fields = [] →
      intern s r = (s.emptyObject, s)) := by
  refine ⟨?_, ?_, ?_⟩
  · intro s r1 r2 h1 h2 he
    by_cases hl : r1.fields.length = 0
    · have h1e : r1.fields = [] := List.length_eq_zero.mp hl
      have h2e : r2.fields = [] := by
        cases hf : r2.fields with
        | nil => rfl
        | cons kv rest =>
          have hk : kv.1 ∈ (r2.fields.map Prod.fst).toFinset := by
            rw [List.mem_toFinset, hf]
            exact List.mem_map_of_mem Prod.fst (List.mem_cons_self _ _)
          rw [← he.1] at hk
          rw [h1e] at hk
          simp at hk
      rw [show intern s r1 = (s.emptyObject, s) by
        unfold intern; rw [if_pos (by rw [h1e]; rfl)]]
      unfold intern
      rw [if_pos (by rw [h2e]; rfl)]
    · have hl2 : ¬ r2.fields.length = 0 := by
        rw [← fields_length_of_equiv r1 r2 h1 h2 he]
        exact hl
      have hpred : (fun ko => objMatches ko r2) = (fun ko => objMatches ko r1) :=
        funext fun ko => (objMatches_of_equiv ko r1 r2 h1 h2 he).symm
      cases hf : s.knownObjects.find? (fun ko => objMatches ko r1) with
      | some ko =>
        rw [show intern s r1 = (ko, s) by unfold intern; rw [if_neg hl, hf]]
        unfold intern
        rw [if_neg hl2, hpred, hf]
      | none =>
        rw [show intern s r1 =
            (r1, { s with knownObjects := s.knownObjects ++ [r1] }) by
          unfold intern; rw [if_neg hl, hf]]
        unfold intern
        rw [if_neg hl2]
        rw [List.find?_append]
        rw [show s.knownObjects.find? (fun ko => objMatches ko r2) = none by
          rw [hpred]; exact hf]
        rw [@List.find?_cons_of_pos _ (fun ko => objMatches ko r2) r1 []
          (objMatches_of_equiv_self r1 r2 h1 h2 he)]
        rfl
  · intro s r hs hr
    by_cases hl : r.fields.length = 0
    · rw [show intern s r = (s.emptyObject, s) by unfold intern; rw [if_pos hl]]
      unfold intern
      rw [if_pos (by rw [hs.emptyFields]; rfl)]
    · cases hf : s.knownObjects.find? (fun ko => objMatches ko r) with
      | some ko =>
        rw [show intern s r = (ko, s) by unfold intern; rw [if_neg hl, hf]]
        have hkm : ko ∈ s.knownObjects := List.mem_of_find?_eq_some hf
        have hknl : ¬ ko.fields.length = 0 := by
          intro h0
          exact hs.nonempty ko hkm (List.length_eq_zero.mp h0)
        unfold intern
        rw [if_neg hknl]
        rw [find?_first_self s.knownObjects ko hs.pairwise hkm
          (objMatches_refl ko (hs.wf ko hkm))]
      | none =>
        rw [show intern s r =
            (r, { s with knownObjects := s.knownObjects ++ [r] }) by
          unfold intern; rw [if_neg hl, hf]]
        unfold intern
        rw [if_neg hl]
        rw [List.find?_append, hf]
        rw [@List.find?_cons_of_pos _ (fun ko => objMatches ko r) r []
          (objMatches_refl r hr)]
        rfl
  · intro s r h
    unfold intern
    rw [if_pos (by rw [h]; rfl)]

/-- Witness for claim C9: two objects with different identities but
equal single-field records intern to the first one, interning the
result is stable, and an empty record maps to the sentinel. -/
theorem interner_canonical_witness :
    (intern (intern createInterner ⟨1, [("a", 5)]⟩).2 ⟨2, [("a", 5)]⟩).1 =
      (intern createInterner ⟨1, [("a", 5)]⟩).1
    ∧ (intern (intern createInterner ⟨1, [("a", 5)]⟩).2
        (intern createInterner ⟨1, [("a", 5)]⟩).1).1 =
      (intern createInterner ⟨1, [("a", 5)]⟩).1
    ∧ intern createInterner ⟨3, []⟩ = (createInterner.emptyObject, createInterner) :=
  ⟨interner_canonical.1 createInterner ⟨1, [("a", 5)]⟩ ⟨2, [("a", 5)]⟩
      (by unfold ObjWF; decide) (by unfold ObjWF; decide) ⟨rfl, fun k => rfl⟩,
   interner_canonical.2.1 createInterner ⟨1, [("a", 5)]⟩
      ⟨rfl, fun o ho => absurd ho (List.not_mem_nil o),
       fun o ho => absurd ho (List.not_mem_nil o), List.Pairwise.nil⟩
      (by unfold ObjWF; decide),
   interner_canonical.2.2 createInterner ⟨3, []⟩ rfl⟩

end EmitterFramework
